import Mathlib

/-!
Verification of the multiplexed-client core of the rustis Redis driver.

The sources under verification are `src/clients/multiplexed_client.rs`
(`MultiplexedClient`, `MultiplexedPreparedCommand`) and `src/clients/mod.rs`.
The engine they delegate to (`InnerClient`, the RESP wire codec, `Pipeline`,
`Transaction`, the reader loop and the pending-request correlator) is not part
of the given sources, so those components are modelled from the specification;
each such definition is flagged with "Modelled from the spec".
-/

namespace Rustis

/-- A Redis command: a name plus its ordered argument list (byte strings),
immutable once built (spec, data model). -/
structure Command where
  name : List Char
  args : List (List Char)

/-- Modelled from the spec: the tagged reply value produced by the Wire Codec
(the `resp::Value` type is not under the verified sources).  The `double`
variant keeps its decimal wire text as payload, since binary floating point is
outside the shallow embedding; all other payloads are byte sequences, native
integers or booleans as the spec prescribes. -/
inductive Reply where
  | simple (s : List Char)
  | bulk (s : List Char)
  | integer (n : Int)
  | double (d : List Char)
  | boolean (b : Bool)
  | null
  | error (msg : List Char)
  | array (items : List Reply)
  | map (pairs : List (Reply × Reply))
  | push (items : List Reply)

/-! ### Wire codec (modelled from the spec, RESP3 framing) -/

/-- The decimal digit characters. -/
def digitChar : Nat → Char
  | 0 => '0'
  | 1 => '1'
  | 2 => '2'
  | 3 => '3'
  | 4 => '4'
  | 5 => '5'
  | 6 => '6'
  | 7 => '7'
  | 8 => '8'
  | 9 => '9'
  | _ => '0'

/-- Whether a character is a decimal digit. -/
def isDigitChar (c : Char) : Bool :=
  decide (48 ≤ c.toNat) && decide (c.toNat ≤ 57)

/-- Numeric value of a digit character. -/
def digitVal (c : Char) : Nat := c.toNat - 48

/-- Decimal representation of a natural number, most significant digit first. -/
def natToDigits (n : Nat) : List Char :=
  if _h : n < 10 then [digitChar n]
  else natToDigits (n / 10) ++ [digitChar (n % 10)]
decreasing_by exact Nat.div_lt_self (by omega) (by omega)

/-- The protocol line terminator. -/
def crlf : List Char := ['\r', '\n']

/-- Decimal representation of an integer, with a leading minus sign when
negative. -/
def intChars (n : Int) : List Char :=
  if n < 0 then '-' :: natToDigits n.natAbs else natToDigits n.natAbs

mutual

/-- Modelled from the spec: `encode` serializes a reply value into its RESP3
wire frame (type marker, length or payload, CRLF terminators). -/
def encode : Reply → List Char
  | .simple s => '+' :: (s ++ crlf)
  | .error m => '-' :: (m ++ crlf)
  | .integer n => ':' :: (intChars n ++ crlf)
  | .double d => ',' :: (d ++ crlf)
  | .boolean true => '#' :: 't' :: crlf
  | .boolean false => '#' :: 'f' :: crlf
  | .null => '_' :: crlf
  | .bulk s => '$' :: (natToDigits s.length ++ crlf ++ s ++ crlf)
  | .array xs => '*' :: (natToDigits xs.length ++ crlf ++ encodeList xs)
  | .push xs => '>' :: (natToDigits xs.length ++ crlf ++ encodeList xs)
  | .map ps => '%' :: (natToDigits ps.length ++ crlf ++ encodePairs ps)

/-- Concatenated encodings of a sequence of replies. -/
def encodeList : List Reply → List Char
  | [] => []
  | x :: xs => encode x ++ encodeList xs

/-- Concatenated encodings of a sequence of key-value reply pairs. -/
def encodePairs : List (Reply × Reply) → List Char
  | [] => []
  | p :: ps => encode p.1 ++ encode p.2 ++ encodePairs ps

end

mutual

/-- Number of frame nodes in a reply; used to bound decoder fuel. -/
def replySize : Reply → Nat
  | .array xs => 1 + sizeList xs
  | .push xs => 1 + sizeList xs
  | .map ps => 1 + sizePairs ps
  | _ => 1

/-- Total node count of a reply sequence. -/
def sizeList : List Reply → Nat
  | [] => 0
  | x :: xs => replySize x + sizeList xs

/-- Total node count of a reply-pair sequence. -/
def sizePairs : List (Reply × Reply) → Nat
  | [] => 0
  | p :: ps => replySize p.1 + replySize p.2 + sizePairs ps

end

/-- Read the bytes up to the next CRLF; fails if the stream ends first or a
carriage return is not followed by a line feed. -/
def readLine : List Char → Option (List Char × List Char)
  | [] => none
  | c :: rest =>
    if c = '\r' then
      match rest with
      | '\n' :: rest2 => some ([], rest2)
      | _ => none
    else (readLine rest).map (fun p => (c :: p.1, p.2))

/-- Consume a maximal run of digit characters, accumulating their value. -/
def readDigits (acc : Nat) : List Char → Nat × List Char
  | [] => (acc, [])
  | c :: rest =>
    if isDigitChar c then readDigits (acc * 10 + digitVal c) rest
    else (acc, c :: rest)

/-- Parse an unsigned decimal integer terminated by CRLF. -/
def readNatLine (cs : List Char) : Option (Nat × List Char) :=
  match cs with
  | [] => none
  | c :: _ =>
    if isDigitChar c then
      match readDigits 0 cs with
      | (n, '\r' :: '\n' :: rest) => some (n, rest)
      | _ => none
    else none

/-- Parse a signed decimal integer terminated by CRLF. -/
def readIntLine (cs : List Char) : Option (Int × List Char) :=
  match cs with
  | [] => none
  | c :: rest =>
    if c = '-' then (readNatLine rest).map (fun p => (-(p.1 : Int), p.2))
    else (readNatLine (c :: rest)).map (fun p => ((p.1 : Int), p.2))

/-- Read exactly `n` payload bytes. -/
def readExact (n : Nat) (cs : List Char) : Option (List Char × List Char) :=
  if n ≤ cs.length then some (cs.take n, cs.drop n) else none

/-- Parse `n` consecutive frames with the element decoder `dec`. -/
def decodeListF (dec : List Char → Option (Reply × List Char)) :
    Nat → List Char → Option (List Reply × List Char)
  | 0, cs => some ([], cs)
  | n + 1, cs =>
    (dec cs).bind fun p =>
      (decodeListF dec n p.2).map fun q => (p.1 :: q.1, q.2)

/-- Parse `n` consecutive key-value frame pairs with the element decoder
`dec`. -/
def decodePairsF (dec : List Char → Option (Reply × List Char)) :
    Nat → List Char → Option (List (Reply × Reply) × List Char)
  | 0, cs => some ([], cs)
  | n + 1, cs =>
    (dec cs).bind fun k =>
      (dec k.2).bind fun v =>
        (decodePairsF dec n v.2).map fun q => ((k.1, v.1) :: q.1, q.2)

/-- Modelled from the spec: dispatch one frame by its type marker, decoding
nested frames with the decoder `dec`. -/
def decodeStep (dec : List Char → Option (Reply × List Char)) :
    List Char → Option (Reply × List Char)
  | [] => none
  | c :: rest =>
    if c = '+' then (readLine rest).map (fun p => (Reply.simple p.1, p.2))
    else if c = '-' then (readLine rest).map (fun p => (Reply.error p.1, p.2))
    else if c = ',' then (readLine rest).map (fun p => (Reply.double p.1, p.2))
    else if c = ':' then (readIntLine rest).map (fun p => (Reply.integer p.1, p.2))
    else if c = '#' then
      match rest with
      | 't' :: '\r' :: '\n' :: rest2 => some (Reply.boolean true, rest2)
      | 'f' :: '\r' :: '\n' :: rest2 => some (Reply.boolean false, rest2)
      | _ => none
    else if c = '_' then
      match rest with
      | '\r' :: '\n' :: rest2 => some (Reply.null, rest2)
      | _ => none
    else if c = '$' then
      (readNatLine rest).bind fun p =>
        (readExact p.1 p.2).bind fun q =>
          match q.2 with
          | '\r' :: '\n' :: rest3 => some (Reply.bulk q.1, rest3)
          | _ => none
    else if c = '*' then
      (readNatLine rest).bind fun p =>
        (decodeListF dec p.1 p.2).map fun q => (Reply.array q.1, q.2)
    else if c = '>' then
      (readNatLine rest).bind fun p =>
        (decodeListF dec p.1 p.2).map fun q => (Reply.push q.1, q.2)
    else if c = '%' then
      (readNatLine rest).bind fun p =>
        (decodePairsF dec p.1 p.2).map fun q => (Reply.map q.1, q.2)
    else none

/-- Modelled from the spec: the resumable frame decoder, fuelled by the maximal
nesting size.  Yields the decoded reply and the unconsumed remainder of the
stream, or `none` when the buffered bytes do not hold a complete frame. -/
def decodeF : Nat → List Char → Option (Reply × List Char)
  | 0, _ => none
  | f + 1, cs => decodeStep (decodeF f) cs

/-- Modelled from the spec: decode one frame from a byte stream.  The fuel
`cs.length + 1` dominates the nesting size of any frame the stream can hold. -/
def decode (cs : List Char) : Option (Reply × List Char) :=
  decodeF (cs.length + 1) cs

/-- No carriage return occurs in the payload: the well-formedness condition for
line-framed (simple string, error, double) payloads. -/
def noCR (s : List Char) : Bool := s.all (fun c => c != '\r')

/-- Representable reply values: line-framed payloads contain no carriage
return (length-prefixed bulk payloads are unrestricted). -/
inductive WFReply : Reply → Prop where
  | simple {s} : noCR s = true → WFReply (.simple s)
  | bulk {s} : WFReply (.bulk s)
  | integer {n} : WFReply (.integer n)
  | double {d} : noCR d = true → WFReply (.double d)
  | boolean {b} : WFReply (.boolean b)
  | null : WFReply .null
  | error {m} : noCR m = true → WFReply (.error m)
  | array {xs} : (∀ x ∈ xs, WFReply x) → WFReply (.array xs)
  | map {ps} : (∀ p ∈ ps, WFReply p.1) → (∀ p ∈ ps, WFReply p.2) →
      WFReply (.map ps)
  | push {xs} : (∀ x ∈ xs, WFReply x) → WFReply (.push xs)

/-! ### Connection state, writer and correlator (modelled from the spec) -/

/-- Modelled from the spec: the outcome a pending request's one-shot slot
resolves with — either a delivered reply or the Connection Closed error used
when the connection is torn down. -/
inductive Outcome where
  | reply (r : Reply)
  | connectionClosed

/-- Modelled from the spec: the driver error kinds the core can surface. -/
inductive DriverError where
  | clientClosed
  | protocolDesync
  | pushWithoutSink

/-- Modelled from the spec: the observable state of one multiplexed
connection.  `writeLog` records, in socket-write order, the request id paired
with the command written; `queue` is the correlator's FIFO of still-pending
ids; `discards` records the ids submitted in forget mode (their replies are
consumed but not surfaced); `resolved` records, in delivery order, each
resolution of a pending slot. -/
structure ConnState where
  nextId : Nat
  writeLog : List (Nat × Command)
  queue : List Nat
  discards : List Nat
  resolved : List (Nat × Outcome)
  sinkOpen : Bool
  sinkLog : List Reply
  closed : Bool

/-- The state of a freshly connected connection. -/
def initConn : ConnState :=
  { nextId := 0, writeLog := [], queue := [], discards := [], resolved := []
    sinkOpen := false, sinkLog := [], closed := false }

/-- Whether a decoded frame is push-typed. -/
def isPush : Reply → Bool
  | .push _ => true
  | _ => false

/-- Modelled from the spec: the Writer's atomic "encode + enqueue + write"
critical section.  One step both appends the command to the socket write log
and enqueues its pending-request slot; in forget mode the id is additionally
marked for discard, but the slot is enqueued all the same.  After a fatal
error (`closed`) every submission fails immediately. -/
def submit (forgetMode : Bool) (cmd : Command) (s : ConnState) :
    Except DriverError (Nat × ConnState) :=
  if s.closed then .error .clientClosed
  else .ok (s.nextId,
    { s with
      nextId := s.nextId + 1
      writeLog := s.writeLog ++ [(s.nextId, cmd)]
      queue := s.queue ++ [s.nextId]
      discards := if forgetMode then s.discards ++ [s.nextId] else s.discards })

/-- Modelled from the spec: the reader-loop dispatch of one decoded frame.  A
push-typed frame goes to the Subscription Sink when one exists and is a
protocol error otherwise; any other frame resolves the oldest pending slot,
and is a desync error when no slot is pending. -/
def deliver (frame : Reply) (s : ConnState) : Except DriverError ConnState :=
  if isPush frame then
    if s.sinkOpen then .ok { s with sinkLog := s.sinkLog ++ [frame] }
    else .error .pushWithoutSink
  else
    match s.queue with
    | [] => .error .protocolDesync
    | id :: rest =>
      .ok { s with queue := rest, resolved := s.resolved ++ [(id, .reply frame)] }

/-- Modelled from the spec: the Subscription Sink is torn down when the last
unsubscribe acknowledgment is consumed. -/
def closeSink (s : ConnState) : ConnState := { s with sinkOpen := false }

/-- Modelled from the spec: connection teardown on a transport or fatal decode
error.  Every outstanding pending slot is drained, resolved with the
Connection Closed outcome in queue order, and the connection becomes terminal
and its sink is closed. -/
def teardown (s : ConnState) : ConnState :=
  { s with
    queue := []
    resolved := s.resolved ++ s.queue.map (fun i => (i, Outcome.connectionClosed))
    closed := true
    sinkOpen := false }

/-- The resolutions surfaced to callers: resolutions of requests that were not
submitted in forget mode (forget-mode replies are consumed and discarded). -/
def visibleResolved (s : ConnState) : List (Nat × Outcome) :=
  s.resolved.filter (fun p => decide (p.1 ∉ s.discards))

/-- An atomic observable event on the shared connection: one caller's
submission entering the writer critical section, or the arrival of one decoded
frame at the reader loop.  An interleaving of concurrent callers is a sequence
of such events. -/
inductive Event where
  | submission (forgetMode : Bool) (cmd : Command)
  | arrival (frame : Reply)

/-- One event step of the connection. -/
def step (s : ConnState) : Event → Except DriverError ConnState
  | .submission f cmd => (submit f cmd s).map Prod.snd
  | .arrival fr => deliver fr s

/-- Run a sequence of events, stopping at the first fatal error. -/
def run : ConnState → List Event → Except DriverError ConnState
  | s, [] => .ok s
  | s, e :: es =>
    match step s e with
    | .error err => .error err
    | .ok s2 => run s2 es

/-! ### Clients (from `src/clients/multiplexed_client.rs`, with the missing
`InnerClient` modelled from the spec) -/

/-- Modelled from the spec: `InnerClient` (not under the verified sources) is a
lightweight handle holding only a reference to the shared connection actor,
here an index into the world's connection table. -/
structure InnerClient where
  connRef : Nat

/-- The live connections of the system; a handle's `connRef` indexes into this
table. -/
structure World where
  conns : List ConnState

/-- Look up the connection a handle refers to. -/
def World.getConn (w : World) (r : Nat) : ConnState := w.conns.getD r initConn

/-- Replace the connection a handle refers to. -/
def World.setConn (w : World) (r : Nat) (cs : ConnState) : World :=
  ⟨w.conns.set r cs⟩

/-- Modelled from the spec: cloning the handle copies the reference to the
shared actor; no socket or queue is duplicated. -/
def InnerClient.clone (ic : InnerClient) : InnerClient := ⟨ic.connRef⟩

/-- Modelled from the spec: submit a command through a handle, updating the one
shared connection it refers to. -/
def InnerClient.submitCmd (ic : InnerClient) (forgetMode : Bool) (cmd : Command)
    (w : World) : Except DriverError (Nat × World) :=
  match submit forgetMode cmd (w.getConn ic.connRef) with
  | .error e => .error e
  | .ok (id, cs) => .ok (id, w.setConn ic.connRef cs)

/-- Modelled from the spec (design choice in §4.3): submit-and-forget still
enqueues a pending slot — via an ordinary forget-mode submission — and returns
without awaiting anything. -/
def InnerClient.send_and_forget (ic : InnerClient) (cmd : Command) (w : World) :
    Except DriverError World :=
  (ic.submitCmd true cmd w).map Prod.snd

/-- From `multiplexed_client.rs` line 21: `#[derive(Clone)] pub struct
MultiplexedClient { inner_client: InnerClient }`. -/
structure MultiplexedClient where
  inner_client : InnerClient

/-- The derived `Clone` implementation clones the single field, which is the
shared-actor handle; the world of live connections is untouched. -/
def MultiplexedClient.clone (w : World) (c : MultiplexedClient) :
    World × MultiplexedClient :=
  (w, ⟨c.inner_client.clone⟩)

/-- From `multiplexed_client.rs` lines 31-34: connecting allocates a fresh
connection and wraps the new handle. -/
def MultiplexedClient.connect (w : World) : World × MultiplexedClient :=
  (⟨w.conns ++ [initConn]⟩, ⟨⟨w.conns.length⟩⟩)

/-- From `multiplexed_client.rs` lines 73-75: `send_and_forget` delegates to
`self.inner_client.send_and_forget(command)` and returns `Result<()>` — a unit
success value, synchronously, with no reply awaited. -/
def MultiplexedClient.send_and_forget (c : MultiplexedClient) (cmd : Command)
    (w : World) : Except DriverError (Unit × World) :=
  (c.inner_client.send_and_forget cmd w).map (fun w2 => ((), w2))

/-- From `multiplexed_client.rs` lines 104-113: a prepared command pairs an
executor client with the command to run. -/
structure PreparedCommand where
  executor : MultiplexedClient
  command : Command

/-- From `multiplexed_client.rs` lines 123-125: `forget` delegates to
`self.executor.send_and_forget(self.command)`. -/
def PreparedCommand.forget (pc : PreparedCommand) (w : World) :
    Except DriverError (Unit × World) :=
  pc.executor.send_and_forget pc.command w

/-! ### Pipeline (modelled from the spec §4.5) -/

/-- Modelled from the spec: a pipeline accumulates commands for one shared
connection without writing them. -/
structure Pipeline where
  client : InnerClient
  commands : List Command

/-- Construction of `Pipeline::new` starts with an empty batch. -/
def Pipeline.new (ic : InnerClient) : Pipeline := ⟨ic, []⟩

/-- From `multiplexed_client.rs` lines 86-88:
`Pipeline::new(self.inner_client.clone())`. -/
def MultiplexedClient.create_pipeline (c : MultiplexedClient) : Pipeline :=
  Pipeline.new c.inner_client.clone

/-- Modelled from the spec: `queue` appends to the batch without writing. -/
def Pipeline.queue (p : Pipeline) (cmd : Command) : Pipeline :=
  { p with commands := p.commands ++ [cmd] }

/-- Modelled from the spec: flushing writes the batch through the writer
critical section once per command, in order, collecting the pending-request
ids. -/
def flushSubmit : List Command → ConnState → Except DriverError (List Nat × ConnState)
  | [], s => .ok ([], s)
  | cmd :: cmds, s =>
    match submit false cmd s with
    | .error e => .error e
    | .ok (id, s2) =>
      match flushSubmit cmds s2 with
      | .error e => .error e
      | .ok (ids, s3) => .ok (id :: ids, s3)

/-- Deliver a sequence of decoded frames, in order. -/
def deliverSeq : List Reply → ConnState → Except DriverError ConnState
  | [], s => .ok s
  | fr :: frs, s =>
    match deliver fr s with
    | .error e => .error e
    | .ok s2 => deliverSeq frs s2

/-! ### Transaction framing (modelled from the spec §4.6; entry point from
`src/clients/multiplexed_client.rs` lines 99-101) -/

/-- Modelled from the spec: a transaction tracks the commands queued through it
on its session's connection. -/
structure Transaction where
  client : InnerClient
  queued : List Command

/-- Construction of `Transaction::new` starts with no queued command. -/
def Transaction.new (ic : InnerClient) : Transaction := ⟨ic, []⟩

/-- From `multiplexed_client.rs` lines 99-101: `create_transaction` returns
`Transaction::new(self.inner_client.clone())` — a transaction over the same
shared connection. -/
def MultiplexedClient.create_transaction (c : MultiplexedClient) : Transaction :=
  Transaction.new c.inner_client.clone

/-- The queued-acknowledgment reply ("QUEUED"). -/
def queuedAck : Reply := .simple ['Q', 'U', 'E', 'U', 'E', 'D']

/-- Modelled from the spec: while queuing, each command receives only the
queued-acknowledgment, and is tracked by the transaction. -/
def Transaction.queueCommand (t : Transaction) (cmd : Command) :
    Reply × Transaction :=
  (queuedAck, { t with queued := t.queued ++ [cmd] })

/-- Modelled from the spec: the outcome of committing a transaction. -/
inductive ExecOutcome where
  | aborted
  | executed (results : List Reply)

/-- Modelled from the spec: the server's reply to the commit command — null
when the transaction was aborted (a watched key changed), otherwise the array
of the real results of the queued commands, in queuing order, where `exec`
gives the server's result for each command. -/
def serverCommitReply (exec : Command → Reply) (wasAborted : Bool)
    (t : Transaction) : Reply :=
  if wasAborted then .null else .array (t.queued.map exec)

/-- Modelled from the spec: interpreting the commit reply — a null reply means
Aborted (no per-command results); an array reply carries the per-command
results. -/
def Transaction.commit (_t : Transaction) (commitReply : Reply) :
    Except DriverError ExecOutcome :=
  match commitReply with
  | .null => .ok .aborted
  | .array rs => .ok (.executed rs)
  | _ => .error .protocolDesync

/-! ### Sample values used by concrete witnesses -/

/-- A concrete command. -/
def pingCmd : Command := ⟨['P', 'I', 'N', 'G'], []⟩

/-- A second concrete command. -/
def getCmd : Command := ⟨['G', 'E', 'T'], [['k']]⟩

/-- A concrete non-push reply. -/
def okReply : Reply := .simple ['O', 'K']

/-- The concrete reply of the round-trip example: an array of the bulk strings
"one" and "two". -/
def oneTwoArray : Reply :=
  .array [.bulk ['o', 'n', 'e'], .bulk ['t', 'w', 'o']]

/-- The concrete connection state reached by the interleaving of the C2
witness: two racing submissions (the second in forget mode) followed by the
arrival of the first reply. -/
def c2Final : ConnState :=
  { nextId := 2, writeLog := [(0, pingCmd), (1, getCmd)], queue := [1]
    discards := [1], resolved := [(0, Outcome.reply okReply)]
    sinkOpen := false, sinkLog := [], closed := false }

/-! ## Theorems -/

/-- C1 (counterexample): contrary to the claim, the multiplexed client does
offer an operation that creates a transaction — `create_transaction` on the
concrete client handle `⟨⟨0⟩⟩` yields a transaction, and that transaction's
session handle is the client's own shared `inner_client`, not a non-shared
connection. -/
theorem create_transaction_offered_on_shared_connection :
    MultiplexedClient.create_transaction ⟨⟨0⟩⟩ = ⟨⟨0⟩, []⟩
    ∧ (MultiplexedClient.create_transaction ⟨⟨0⟩⟩).client
        = (MultiplexedClient.mk ⟨0⟩).inner_client :=
  ⟨rfl, rfl⟩

/-- C1 (amended): `MultiplexedClient::create_transaction` does exist and
returns a fresh transaction whose session handle is (a clone of) the client's
own shared inner connection handle, so transaction framing is offered on the
shared connection itself; only `watch`/`unwatch` are documented as
unsupported. -/
theorem create_transaction_shares_inner_client (c : MultiplexedClient) :
    (c.create_transaction).client = c.inner_client
    ∧ (c.create_transaction).queued = [] :=
  ⟨rfl, rfl⟩

/-- C5: queuing a command through a transaction yields only the
queued-acknowledgment reply while the command is tracked; committing yields
either the Aborted outcome (on a null commit reply, no per-command results) or
exactly one result per queued command, in queuing order. -/
theorem transaction_commit_outcome (t : Transaction) (exec : Command → Reply)
    (cmd : Command) :
    (t.queueCommand cmd).1 = queuedAck
    ∧ (t.queueCommand cmd).2.queued = t.queued ++ [cmd]
    ∧ t.commit (serverCommitReply exec true t) = .ok .aborted
    ∧ t.commit (serverCommitReply exec false t)
        = .ok (.executed (t.queued.map exec))
    ∧ (t.queued.map exec).length = t.queued.length
    ∧ ∀ (i : Nat) (h : i < t.queued.length),
        (t.queued.map exec).get ⟨i, by simpa using h⟩
          = exec (t.queued.get ⟨i, h⟩) := by
  refine ⟨rfl, rfl, rfl, rfl, by simp, ?_⟩
  intro i h
  simp

/-- Witness for C5 at a concrete two-command transaction. -/
theorem transaction_commit_outcome_witness :
    Transaction.commit ⟨⟨0⟩, [pingCmd, getCmd]⟩
        (serverCommitReply (fun _ => okReply) false ⟨⟨0⟩, [pingCmd, getCmd]⟩)
      = .ok (.executed [okReply, okReply])
    ∧ ([pingCmd, getCmd].map (fun _ => okReply)).get ⟨0, by decide⟩ = okReply :=
  ⟨(transaction_commit_outcome ⟨⟨0⟩, [pingCmd, getCmd]⟩ (fun _ => okReply)
      pingCmd).2.2.2.1,
   (transaction_commit_outcome ⟨⟨0⟩, [pingCmd, getCmd]⟩ (fun _ => okReply)
      pingCmd).2.2.2.2.2 0 (by decide)⟩

/-- C6: a push-typed frame is never matched to a pending request and never
consumes a queue slot — it is routed to the Subscription Sink when one is
open, is a protocol error when none exists, and after the sink is torn down
(last unsubscribe acknowledgment) no further push delivery occurs. -/
theorem push_frame_never_consumes_slot (s : ConnState) (frame : Reply)
    (hp : isPush frame = true) :
    (s.sinkOpen = true →
      deliver frame s = .ok { s with sinkLog := s.sinkLog ++ [frame] })
    ∧ (s.sinkOpen = false → deliver frame s = .error .pushWithoutSink)
    ∧ (∀ s2, deliver frame s = .ok s2 →
        s2.queue = s.queue ∧ s2.resolved = s.resolved)
    ∧ deliver frame (closeSink s) = .error .pushWithoutSink := by
  refine ⟨fun h => by simp [deliver, hp, h], fun h => by simp [deliver, hp, h],
    ?_, by simp [deliver, closeSink, hp]⟩
  intro s2 h
  by_cases hsink : s.sinkOpen
  · simp [deliver, hp, hsink] at h
    subst h
    exact ⟨rfl, rfl⟩
  · simp [deliver, hp, hsink] at h

/-- Witness for C6 at a concrete push frame, with and without an open sink. -/
theorem push_frame_never_consumes_slot_witness :
    deliver (Reply.push []) { initConn with sinkOpen := true }
      = .ok { initConn with sinkOpen := true, sinkLog := [Reply.push []] }
    ∧ deliver (Reply.push []) initConn = .error .pushWithoutSink :=
  ⟨(push_frame_never_consumes_slot { initConn with sinkOpen := true }
      (Reply.push []) rfl).1 rfl,
   (push_frame_never_consumes_slot initConn (Reply.push []) rfl).2.1 rfl⟩

/-- C7: teardown resolves every outstanding pending request with the
Connection Closed outcome, in queue order and (for distinct pending ids)
exactly once; afterwards the queue is drained, the connection is terminal,
any further submission fails immediately, and no further real reply can be
delivered to a pending request. -/
theorem teardown_drains_pending_in_order (s : ConnState) (forgetMode : Bool)
    (cmd : Command) (frame : Reply) :
    (teardown s).resolved
        = s.resolved ++ s.queue.map (fun i => (i, Outcome.connectionClosed))
    ∧ (teardown s).queue = []
    ∧ (teardown s).closed = true
    ∧ submit forgetMode cmd (teardown s) = .error .clientClosed
    ∧ (isPush frame = false →
        deliver frame (teardown s) = .error .protocolDesync)
    ∧ (s.queue.Nodup → ∀ i ∈ s.queue,
        ((teardown s).resolved.map Prod.fst).count i
          = (s.resolved.map Prod.fst).count i + 1) := by
  refine ⟨rfl, rfl, rfl, by simp [submit, teardown], ?_, ?_⟩
  · intro h
    simp [deliver, teardown, h]
  · intro hnd i hi
    have hmap : s.queue.map (Prod.fst ∘ fun j => (j, Outcome.connectionClosed))
        = s.queue := by
      simp [Function.comp_def]
    simp only [teardown, List.map_append, List.map_map, List.count_append, hmap]
    rw [List.count_eq_one_of_mem hnd hi]

/-- Witness for C7 at a concrete connection with two pending requests. -/
theorem teardown_drains_pending_in_order_witness :
    (teardown { initConn with queue := [0, 1] }).resolved
        = [(0, Outcome.connectionClosed), (1, Outcome.connectionClosed)]
    ∧ deliver okReply (teardown { initConn with queue := [0, 1] })
        = .error .protocolDesync
    ∧ ((teardown { initConn with queue := [0, 1] }).resolved.map Prod.fst).count 0
        = (({ initConn with queue := [0, 1] } : ConnState).resolved.map
            Prod.fst).count 0 + 1 := by
  have h := teardown_drains_pending_in_order { initConn with queue := [0, 1] }
    false pingCmd okReply
  exact ⟨h.1, h.2.2.2.2.1 rfl, h.2.2.2.2.2 (by decide) 0 (by decide)⟩

/-- C9: cloning a `MultiplexedClient` duplicates neither socket nor queue —
the world of live connections is unchanged, the clone holds the same shared
connection reference, and a submission through the clone is the very same
operation on the very same connection as through the original (while
`connect`, by contrast, allocates a new connection). -/
theorem clone_shares_connection (w : World) (c : MultiplexedClient)
    (forgetMode : Bool) (cmd : Command) :
    (MultiplexedClient.clone w c).1 = w
    ∧ (MultiplexedClient.clone w c).2.inner_client = c.inner_client
    ∧ (MultiplexedClient.clone w c).2.inner_client.submitCmd forgetMode cmd w
        = c.inner_client.submitCmd forgetMode cmd w
    ∧ (MultiplexedClient.connect w).1.conns.length = w.conns.length + 1 := by
  exact ⟨rfl, rfl, rfl, by simp [MultiplexedClient.connect]⟩

/-- C10: `send_and_forget` is completion-blind — `PreparedCommand::forget`
delegates to it, and its result is fully determined at submission time: on an
open connection it returns the unit success value immediately (the state
update being exactly the forget-mode enqueue), with no reply value awaited,
carried or consulted; on a closed connection it fails immediately. -/
theorem send_and_forget_completion_blind (w : World) (c : MultiplexedClient)
    (cmd : Command) :
    (∀ pc : PreparedCommand,
      pc.forget w = pc.executor.send_and_forget pc.command w)
    ∧ ((w.getConn c.inner_client.connRef).closed = false →
        c.send_and_forget cmd w
          = .ok ((), w.setConn c.inner_client.connRef
              { w.getConn c.inner_client.connRef with
                nextId := (w.getConn c.inner_client.connRef).nextId + 1
                writeLog := (w.getConn c.inner_client.connRef).writeLog
                  ++ [((w.getConn c.inner_client.connRef).nextId, cmd)]
                queue := (w.getConn c.inner_client.connRef).queue
                  ++ [(w.getConn c.inner_client.connRef).nextId]
                discards := (w.getConn c.inner_client.connRef).discards
                  ++ [(w.getConn c.inner_client.connRef).nextId] }))
    ∧ ((w.getConn c.inner_client.connRef).closed = true →
        c.send_and_forget cmd w = .error .clientClosed) := by
  refine ⟨fun pc => rfl, fun h => ?_, fun h => ?_⟩
  · simp [MultiplexedClient.send_and_forget, InnerClient.send_and_forget,
      InnerClient.submitCmd, submit, h, Except.map]
  · simp [MultiplexedClient.send_and_forget, InnerClient.send_and_forget,
      InnerClient.submitCmd, submit, h, Except.map]

/-- Witness for C10 on a concrete open and a concrete torn-down connection. -/
theorem send_and_forget_completion_blind_witness :
    MultiplexedClient.send_and_forget ⟨⟨0⟩⟩ pingCmd ⟨[initConn]⟩
      = .ok ((), ⟨[{ initConn with
          nextId := 1, writeLog := [(0, pingCmd)], queue := [0],
          discards := [0] }]⟩)
    ∧ MultiplexedClient.send_and_forget ⟨⟨0⟩⟩ pingCmd ⟨[teardown initConn]⟩
      = .error .clientClosed :=
  ⟨(send_and_forget_completion_blind ⟨[initConn]⟩ ⟨⟨0⟩⟩ pingCmd).2.1 rfl,
   (send_and_forget_completion_blind ⟨[teardown initConn]⟩ ⟨⟨0⟩⟩ pingCmd).2.2 rfl⟩

/-- C3: a forget-mode submission still enqueues a pending-request slot — the
queue and write log grow exactly as for an ordinary submission (the slot is
never skipped) — and when that slot's reply is later delivered it consumes the
slot but is discarded: it never appears among the caller-visible
resolutions. -/
theorem forget_mode_still_enqueues_slot (s : ConnState) (cmd : Command)
    (frame : Reply) (hopen : s.closed = false) (hframe : isPush frame = false) :
    ∃ s1,
      submit true cmd s = .ok (s.nextId, s1)
      ∧ s1.queue = s.queue ++ [s.nextId]
      ∧ s1.writeLog = s.writeLog ++ [(s.nextId, cmd)]
      ∧ s1.discards = s.discards ++ [s.nextId]
      ∧ (submit false cmd s).map (fun p => (p.2.queue, p.2.writeLog, p.2.nextId))
          = .ok (s1.queue, s1.writeLog, s1.nextId)
      ∧ (s.queue = [] →
          deliver frame s1
            = .ok { s1 with
                queue := []
                resolved := s1.resolved ++ [(s.nextId, .reply frame)] }
          ∧ (s.nextId, Outcome.reply frame)
              ∉ visibleResolved { s1 with
                  queue := []
                  resolved := s1.resolved ++ [(s.nextId, .reply frame)] }) := by
  refine ⟨{ s with
      nextId := s.nextId + 1
      writeLog := s.writeLog ++ [(s.nextId, cmd)]
      queue := s.queue ++ [s.nextId]
      discards := s.discards ++ [s.nextId] }, ?_, rfl, rfl, rfl, ?_, ?_⟩
  · simp [submit, hopen]
  · simp [submit, hopen, Except.map]
  · intro hq
    constructor
    · simp [deliver, hframe, hq]
    · intro hmem
      have h2 := of_decide_eq_true (List.mem_filter.mp hmem).2
      exact h2 (by simp)

/-- Witness for C3 at a concrete forget-mode submission. -/
theorem forget_mode_still_enqueues_slot_witness :
    ∃ s1, submit true pingCmd initConn = .ok (0, s1) ∧ s1.queue = [0] := by
  obtain ⟨s1, h1, h2, _h3, _h4, _h5, _h6⟩ :=
    forget_mode_still_enqueues_slot initConn pingCmd okReply rfl rfl
  exact ⟨s1, h1, h2⟩

/-- One event step preserves the order invariant: the socket-write order is
the delivery order followed by the pending-queue order, and is the submission
order `0, 1, …, nextId - 1`. -/
theorem step_preserves_order (s s2 : ConnState) (e : Event)
    (h1 : s.writeLog.map Prod.fst = s.resolved.map Prod.fst ++ s.queue)
    (h2 : s.writeLog.map Prod.fst = List.range s.nextId)
    (hs : step s e = .ok s2) :
    s2.writeLog.map Prod.fst = s2.resolved.map Prod.fst ++ s2.queue
    ∧ s2.writeLog.map Prod.fst = List.range s2.nextId := by
  cases e with
  | submission f cmd =>
    by_cases hc : s.closed
    · simp [step, submit, hc, Except.map] at hs
    · simp [step, submit, hc, Except.map] at hs
      subst hs
      constructor
      · simp only [List.map_append, h1, List.append_assoc]
        rfl
      · simp only [List.map_append, h2, List.range_succ]
        rfl
  | arrival fr =>
    by_cases hp : isPush fr
    · by_cases hsink : s.sinkOpen
      · simp [step, deliver, hp, hsink] at hs
        subst hs
        exact ⟨h1, h2⟩
      · simp [step, deliver, hp, hsink] at hs
    · cases hq : s.queue with
      | nil => simp [step, deliver, hp, hq] at hs
      | cons id rest =>
        simp [step, deliver, hp, hq] at hs
        subst hs
        constructor
        · simp only [List.map_append, h1, hq]
          simp
        · exact h2

/-- Running any event sequence preserves the order invariant. -/
theorem run_preserves_order (es : List Event) : ∀ (s s2 : ConnState),
    run s es = .ok s2 →
    (s.writeLog.map Prod.fst = s.resolved.map Prod.fst ++ s.queue
      ∧ s.writeLog.map Prod.fst = List.range s.nextId) →
    s2.writeLog.map Prod.fst = s2.resolved.map Prod.fst ++ s2.queue
    ∧ s2.writeLog.map Prod.fst = List.range s2.nextId := by
  induction es with
  | nil =>
    intro s s2 h hI
    simp [run] at h
    subst h
    exact hI
  | cons e es ih =>
    intro s s2 h hI
    cases hstep : step s e with
    | error err => simp [run, hstep] at h
    | ok s1 =>
      simp only [run, hstep] at h
      exact ih s1 s2 h (step_preserves_order s s1 e hI.1 hI.2 hstep)

/-- C2: for every interleaving of concurrent submissions and frame arrivals on
one shared connection, the socket-write order, the pending-request enqueue
order and the reply-delivery order form one total order: the write log is the
submission order `0, 1, …`, its delivered prefix is exactly the resolution
order, and its undelivered suffix is exactly the pending queue. -/
theorem write_enqueue_deliver_single_total_order (es : List Event)
    (s : ConnState) (h : run initConn es = .ok s) :
    s.writeLog.map Prod.fst = s.resolved.map Prod.fst ++ s.queue
    ∧ s.writeLog.map Prod.fst = List.range s.nextId :=
  run_preserves_order es initConn s h ⟨rfl, rfl⟩

/-- Witness for C2 on a concrete interleaving: two racing submissions (one in
forget mode) followed by the arrival of the first reply. -/
theorem write_enqueue_deliver_single_total_order_witness :
    run initConn [.submission false pingCmd, .submission true getCmd,
        .arrival okReply]
      = .ok c2Final
    ∧ (c2Final.writeLog.map Prod.fst
        = c2Final.resolved.map Prod.fst ++ c2Final.queue
      ∧ c2Final.writeLog.map Prod.fst = List.range c2Final.nextId) :=
  ⟨rfl, write_enqueue_deliver_single_total_order
    [.submission false pingCmd, .submission true getCmd, .arrival okReply]
    c2Final rfl⟩

/-- Flushing a batch through the writer submits every command, in order, with
consecutive ids: the ids are `nextId, nextId + 1, …`, appended contiguously to
both the write log (paired with their commands) and the pending queue. -/
theorem flushSubmit_spec (cmds : List Command) : ∀ (s : ConnState),
    s.closed = false →
    flushSubmit cmds s = .ok (List.range' s.nextId cmds.length,
      { s with
        nextId := s.nextId + cmds.length
        writeLog := s.writeLog ++ (List.range' s.nextId cmds.length).zip cmds
        queue := s.queue ++ List.range' s.nextId cmds.length }) := by
  induction cmds with
  | nil =>
    intro s h
    simp [flushSubmit]
  | cons cmd cmds ih =>
    intro s h
    simp only [flushSubmit, submit, h, Bool.false_eq_true, if_false]
    rw [ih _ rfl]
    have harith : s.nextId + 1 + cmds.length = s.nextId + (cmds.length + 1) := by
      omega
    simp [List.range'_succ, List.append_assoc, harith]

/-- Delivering one non-push frame per pending id resolves the whole queue, in
order, pairing each id with its own frame. -/
theorem deliverSeq_resolves (frames : List Reply) : ∀ (s : ConnState)
    (ids : List Nat),
    s.queue = ids → ids.length = frames.length →
    (∀ f ∈ frames, isPush f = false) →
    deliverSeq frames s = .ok { s with
      queue := []
      resolved := s.resolved ++ ids.zip (frames.map Outcome.reply) } := by
  induction frames with
  | nil =>
    intro s ids hq hlen _
    cases ids with
    | nil => simp [deliverSeq, ← hq]
    | cons id ids2 => simp at hlen
  | cons fr frs ih =>
    intro s ids hq hlen hp
    cases ids with
    | nil => simp at hlen
    | cons id ids2 =>
      have hfr : isPush fr = false := hp fr (by simp)
      simp only [deliverSeq, deliver, hfr, Bool.false_eq_true, if_false, hq]
      rw [ih _ ids2 rfl (by simpa using hlen) (fun f hf => hp f (by simp [hf]))]
      simp only [List.map_cons, List.zip_cons_cons, Except.ok.injEq,
        ConnState.mk.injEq, List.append_assoc, List.cons_append,
        List.nil_append]

/-- C4: flushing a pipeline of K queued commands enqueues exactly K pending
requests, contiguously and in submission order; awaiting them against the
server's K replies resolves position i with exactly the reply of command i —
a reply that is an error Reply occupies its own position and suppresses no
other position. -/
theorem pipeline_flush_length_and_order (p : Pipeline) (s : ConnState)
    (server : Command → Reply) (hopen : s.closed = false) (hq : s.queue = [])
    (hserver : ∀ cmd, isPush (server cmd) = false) :
    ∃ ids s2 s3,
      flushSubmit p.commands s = .ok (ids, s2)
      ∧ ids.length = p.commands.length
      ∧ ids = List.range' s.nextId p.commands.length
      ∧ s2.queue = ids
      ∧ deliverSeq (p.commands.map server) s2 = .ok s3
      ∧ s3.resolved
          = s.resolved ++ ids.zip ((p.commands.map server).map Outcome.reply)
      ∧ s3.queue = []
      ∧ ∀ (i : Nat) (hi : i < p.commands.length),
          ((List.range' s.nextId p.commands.length).zip
              ((p.commands.map server).map Outcome.reply)).get
              ⟨i, by simpa using hi⟩
            = (s.nextId + i, Outcome.reply (server (p.commands.get ⟨i, hi⟩))) := by
  have hpush : ∀ f ∈ p.commands.map server, isPush f = false := by
    intro f hf
    obtain ⟨cmd, _, rfl⟩ := List.mem_map.mp hf
    exact hserver cmd
  have hdel := deliverSeq_resolves (p.commands.map server)
    { s with
      nextId := s.nextId + p.commands.length
      writeLog := s.writeLog ++ (List.range' s.nextId p.commands.length).zip p.commands
      queue := s.queue ++ List.range' s.nextId p.commands.length }
    (List.range' s.nextId p.commands.length) (by simp [hq]) (by simp) hpush
  refine ⟨List.range' s.nextId p.commands.length, _, _,
    flushSubmit_spec p.commands s hopen, by simp, rfl, by simp [hq],
    hdel, rfl, rfl, ?_⟩
  intro i hi
  rw [List.get_eq_getElem, List.getElem_zip]
  simp [List.getElem_range', List.get_eq_getElem]

/-- Witness for C4: a concrete two-command pipeline against a server whose
every reply is an error Reply — both positions still receive their own
replies. -/
theorem pipeline_flush_length_and_order_witness :
    ∃ ids s2 s3,
      flushSubmit [pingCmd, getCmd] initConn = .ok (ids, s2)
      ∧ ids.length = 2
      ∧ deliverSeq ([pingCmd, getCmd].map (fun cmd => Reply.error cmd.name)) s2
          = .ok s3
      ∧ s3.resolved = [(0, Outcome.reply (Reply.error pingCmd.name)),
          (1, Outcome.reply (Reply.error getCmd.name))] := by
  obtain ⟨ids, s2, s3, h1, h2, h3, h4, h5, h6, h7, h8⟩ :=
    pipeline_flush_length_and_order ⟨⟨0⟩, [pingCmd, getCmd]⟩ initConn
      (fun cmd => Reply.error cmd.name) rfl rfl (fun _ => rfl)
  subst h3
  exact ⟨_, s2, s3, h1, h2, h5, h6⟩

/-! ### Codec round-trip lemmas (towards C8) -/

/-- Digit characters are recognized as digits. -/
theorem isDigitChar_digitChar (k : Nat) (h : k < 10) :
    isDigitChar (digitChar k) = true := by
  interval_cases k <;> rfl

/-- Parsing a digit character yields its value back. -/
theorem digitVal_digitChar (k : Nat) (h : k < 10) :
    digitVal (digitChar k) = k := by
  interval_cases k <;> rfl

/-- A digit character is not a carriage return and not a minus sign. -/
theorem isDigitChar_not_special (c : Char) (h : isDigitChar c = true) :
    c ≠ '\r' ∧ c ≠ '-' := by
  constructor <;> rintro rfl <;> revert h <;> decide

/-- The decimal representation of a natural number is nonempty. -/
theorem natToDigits_ne_nil (n : Nat) : natToDigits n ≠ [] := by
  induction n using natToDigits.induct with
  | case1 n h => rw [natToDigits]; simp [h]
  | case2 n h ih => rw [natToDigits]; simp [h]

/-- Every character of a decimal representation is a digit. -/
theorem natToDigits_digits (n : Nat) : ∀ c ∈ natToDigits n, isDigitChar c = true := by
  induction n using natToDigits.induct with
  | case1 n h =>
    rw [natToDigits]
    simp only [h, dif_pos, List.mem_singleton]
    rintro c rfl
    exact isDigitChar_digitChar n h
  | case2 n h ih =>
    rw [natToDigits]
    simp only [h, dif_neg, not_false_iff, List.mem_append, List.mem_singleton]
    rintro c (hc | rfl)
    · exact ih c hc
    · exact isDigitChar_digitChar (n % 10) (Nat.mod_lt n (by omega))

/-- Folding the digit-accumulation step over a decimal representation
reconstructs the number (shifted past the accumulator). -/
theorem natToDigits_foldl (n : Nat) : ∀ acc : Nat,
    (natToDigits n).foldl (fun a c => a * 10 + digitVal c) acc
      = acc * 10 ^ (natToDigits n).length + n := by
  induction n using natToDigits.induct with
  | case1 n h =>
    intro acc
    rw [natToDigits]
    simp [h, digitVal_digitChar n h]
  | case2 n h ih =>
    intro acc
    rw [natToDigits]
    simp only [h, dif_neg, not_false_iff, List.foldl_append, List.foldl_cons,
      List.foldl_nil, List.length_append, List.length_singleton]
    rw [ih acc, digitVal_digitChar (n % 10) (Nat.mod_lt n (by omega))]
    have h10 : 10 ^ ((natToDigits (n / 10)).length + 1)
        = 10 ^ (natToDigits (n / 10)).length * 10 := by
      rw [pow_succ]
    rw [h10]
    have := Nat.div_add_mod n 10
    ring_nf
    omega

/-- The reader `readDigits` consumes exactly a run of digits followed by a carriage
return, folding up their value. -/
theorem readDigits_digits_append (ds : List Char) : ∀ (acc : Nat) (rest : List Char),
    (∀ c ∈ ds, isDigitChar c = true) →
    readDigits acc (ds ++ '\r' :: rest)
      = (ds.foldl (fun a c => a * 10 + digitVal c) acc, '\r' :: rest) := by
  induction ds with
  | nil =>
    intro acc rest _
    have hcr : isDigitChar '\r' = false := by decide
    simp [readDigits, hcr]
  | cons c ds ih =>
    intro acc rest h
    have hc : isDigitChar c = true := h c (by simp)
    simp only [List.cons_append, readDigits, hc, if_pos, List.foldl_cons]
    exact ih _ rest (fun d hd => h d (by simp [hd]))

/-- Parsing the encoding of an unsigned decimal line yields the number. -/
theorem readNatLine_encode (n : Nat) (rest : List Char) :
    readNatLine (natToDigits n ++ '\r' :: '\n' :: rest) = some (n, rest) := by
  cases hd : natToDigits n with
  | nil => exact absurd hd (natToDigits_ne_nil n)
  | cons c cs =>
    have hc : isDigitChar c = true := by
      apply natToDigits_digits n
      rw [hd]
      simp
    have hds := readDigits_digits_append (natToDigits n) 0 ('\n' :: rest)
      (natToDigits_digits n)
    rw [natToDigits_foldl n 0] at hds
    simp only [Nat.zero_mul, Nat.zero_add] at hds
    rw [hd] at hds
    simp only [hd, List.cons_append, readNatLine, hc, if_pos]
    rw [show c :: (cs ++ '\r' :: '\n' :: rest) = (c :: cs) ++ '\r' :: '\n' :: rest
      from rfl, hds]
    rfl

/-- Parsing the encoding of a signed decimal line yields the integer. -/
theorem readIntLine_encode (n : Int) (rest : List Char) :
    readIntLine (intChars n ++ '\r' :: '\n' :: rest) = some (n, rest) := by
  by_cases hn : n < 0
  · simp only [intChars, hn, if_pos, List.cons_append, readIntLine, reduceIte,
      readNatLine_encode]
    have hval : (-(n.natAbs : Int)) = n := by omega
    show some (-(n.natAbs : Int), rest) = some (n, rest)
    rw [hval]
  · have hchars : intChars n = natToDigits n.natAbs := by simp [intChars, hn]
    rw [hchars]
    cases hd : natToDigits n.natAbs with
    | nil => exact absurd hd (natToDigits_ne_nil n.natAbs)
    | cons c cs =>
      have hc : isDigitChar c = true := by
        apply natToDigits_digits n.natAbs
        rw [hd]
        simp
      have hcm : c ≠ '-' := (isDigitChar_not_special c hc).2
      simp only [List.cons_append, readIntLine, hcm, if_neg, reduceIte]
      rw [show c :: (cs ++ '\r' :: '\n' :: rest)
        = (c :: cs) ++ '\r' :: '\n' :: rest from rfl, ← hd, readNatLine_encode]
      have hval : ((n.natAbs : Int)) = n := by omega
      simp [hval]

/-- Reading a line from the encoding of a CR-free payload yields the payload. -/
theorem readLine_encode (s : List Char) : ∀ rest : List Char,
    (∀ c ∈ s, c ≠ '\r') →
    readLine (s ++ '\r' :: '\n' :: rest) = some (s, rest) := by
  induction s with
  | nil => intro rest _; rfl
  | cons c cs ih =>
    intro rest h
    have hc : c ≠ '\r' := h c (by simp)
    simp only [List.cons_append, readLine, hc, if_neg, reduceIte, List.append_eq]
    rw [ih rest (fun d hd => h d (by simp [hd]))]
    rfl

/-- Reading exactly the length of a prefix returns that prefix. -/
theorem readExact_append (s rest : List Char) :
    readExact s.length (s ++ rest) = some (s, rest) := by
  simp [readExact, List.take_left, List.drop_left]

/-- A CR-free payload, characterwise. -/
theorem noCR_spec (s : List Char) (h : noCR s = true) : ∀ c ∈ s, c ≠ '\r' := by
  intro c hc
  have := List.all_eq_true.mp h c hc
  simpa using this

/-- A member's node count is bounded by the sequence node count. -/
theorem replySize_le_sizeList (x : Reply) (xs : List Reply) (h : x ∈ xs) :
    replySize x ≤ sizeList xs := by
  induction xs with
  | nil => simp at h
  | cons y ys ih =>
    rcases List.mem_cons.mp h with rfl | h2
    · simp [sizeList]
    · have := ih h2
      simp only [sizeList]
      omega

/-- A pair member's node counts are bounded by the pair-sequence node count. -/
theorem replySize_le_sizePairs (p : Reply × Reply) (ps : List (Reply × Reply))
    (h : p ∈ ps) : replySize p.1 ≤ sizePairs ps ∧ replySize p.2 ≤ sizePairs ps := by
  induction ps with
  | nil => simp at h
  | cons q qs ih =>
    rcases List.mem_cons.mp h with rfl | h2
    · simp only [sizePairs]
      omega
    · have := ih h2
      simp only [sizePairs]
      omega

/-- The node count of a sequence is bounded by its encoding length, given the
bound for each member. -/
theorem sizeList_le_encodeList (xs : List Reply)
    (h : ∀ x ∈ xs, replySize x ≤ (encode x).length) :
    sizeList xs ≤ (encodeList xs).length := by
  induction xs with
  | nil => simp [sizeList, encodeList]
  | cons x xs ih =>
    have h1 := h x (by simp)
    have h2 := ih (fun y hy => h y (by simp [hy]))
    simp only [sizeList, encodeList, List.length_append]
    omega

/-- The node count of a pair sequence is bounded by its encoding length. -/
theorem sizePairs_le_encodePairs (ps : List (Reply × Reply))
    (h : ∀ p ∈ ps, replySize p.1 ≤ (encode p.1).length
      ∧ replySize p.2 ≤ (encode p.2).length) :
    sizePairs ps ≤ (encodePairs ps).length := by
  induction ps with
  | nil => simp [sizePairs, encodePairs]
  | cons q qs ih =>
    have h1 := h q (by simp)
    have h2 := ih (fun r hr => h r (by simp [hr]))
    simp only [sizePairs, encodePairs, List.length_append]
    omega

/-- The node count of a representable reply is bounded by the length of its
encoding. -/
theorem replySize_le_encode (v : Reply) (hv : WFReply v) :
    replySize v ≤ (encode v).length := by
  induction hv with
  | @simple s h => simp [replySize, encode]
  | @bulk s => simp [replySize, encode]
  | @integer n => simp [replySize, encode]
  | @double d h => simp [replySize, encode]
  | @boolean b => cases b <;> simp [replySize, encode]
  | null => simp [replySize, encode]
  | @error m h => simp [replySize, encode]
  | @array xs h ih =>
    have := sizeList_le_encodeList xs ih
    simp only [replySize, encode, List.length_cons, List.length_append]
    omega
  | @map ps h1 h2 ih1 ih2 =>
    have := sizePairs_le_encodePairs ps (fun p hp => ⟨ih1 p hp, ih2 p hp⟩)
    simp only [replySize, encode, List.length_cons, List.length_append]
    omega
  | @push xs h ih =>
    have := sizeList_le_encodeList xs ih
    simp only [replySize, encode, List.length_cons, List.length_append]
    omega

/-- Element-wise decoder correctness lifts to sequences of frames. -/
theorem decodeListF_encodeList (f : Nat) (xs : List Reply)
    (hx : ∀ x ∈ xs, ∀ rest2 : List Char,
      decodeF f (encode x ++ rest2) = some (x, rest2)) :
    ∀ rest : List Char,
      decodeListF (decodeF f) xs.length (encodeList xs ++ rest)
        = some (xs, rest) := by
  induction xs with
  | nil => intro rest; simp [encodeList, decodeListF]
  | cons x xs ih =>
    intro rest
    simp only [encodeList, List.length_cons, decodeListF, List.append_assoc]
    rw [hx x (by simp) (encodeList xs ++ rest)]
    simp only [Option.some_bind]
    rw [ih (fun y hy rest2 => hx y (by simp [hy]) rest2) rest]
    rfl

/-- Element-wise decoder correctness lifts to sequences of frame pairs. -/
theorem decodePairsF_encodePairs (f : Nat) (ps : List (Reply × Reply))
    (hx : ∀ p ∈ ps, ∀ rest2 : List Char,
      decodeF f (encode p.1 ++ rest2) = some (p.1, rest2)
      ∧ decodeF f (encode p.2 ++ rest2) = some (p.2, rest2)) :
    ∀ rest : List Char,
      decodePairsF (decodeF f) ps.length (encodePairs ps ++ rest)
        = some (ps, rest) := by
  induction ps with
  | nil => intro rest; simp [encodePairs, decodePairsF]
  | cons q qs ih =>
    intro rest
    simp only [encodePairs, List.length_cons, decodePairsF, List.append_assoc]
    rw [(hx q (by simp) (encode q.2 ++ (encodePairs qs ++ rest))).1]
    simp only [Option.some_bind]
    rw [(hx q (by simp) (encodePairs qs ++ rest)).2]
    simp only [Option.some_bind]
    rw [ih (fun r hr rest2 => hx r (by simp [hr]) rest2) rest]
    rfl

/-- With enough fuel, decoding the encoding of any representable reply yields
the reply and leaves the rest of the stream untouched. -/
theorem decodeF_encode (v : Reply) (hv : WFReply v) : ∀ (fuel : Nat)
    (rest : List Char), replySize v ≤ fuel →
    decodeF fuel (encode v ++ rest) = some (v, rest) := by
  induction hv with
  | @simple s h =>
    intro fuel rest hf
    simp only [replySize] at hf
    obtain ⟨f, rfl⟩ : ∃ f, fuel = f + 1 := ⟨fuel - 1, by omega⟩
    simp only [encode, crlf, List.cons_append, List.append_assoc, List.nil_append,
      decodeF, decodeStep, reduceIte]
    rw [readLine_encode s rest (noCR_spec s h)]
    rfl
  | @bulk s =>
    intro fuel rest hf
    simp only [replySize] at hf
    obtain ⟨f, rfl⟩ : ∃ f, fuel = f + 1 := ⟨fuel - 1, by omega⟩
    simp only [encode, crlf, List.cons_append, List.append_assoc, List.nil_append,
      decodeF, decodeStep, reduceIte]
    rw [readNatLine_encode s.length (s ++ '\r' :: '\n' :: rest)]
    simp only [Option.some_bind]
    rw [readExact_append s ('\r' :: '\n' :: rest)]
    rfl
  | @integer n =>
    intro fuel rest hf
    simp only [replySize] at hf
    obtain ⟨f, rfl⟩ : ∃ f, fuel = f + 1 := ⟨fuel - 1, by omega⟩
    simp only [encode, crlf, List.cons_append, List.append_assoc, List.nil_append,
      decodeF, decodeStep, reduceIte]
    rw [readIntLine_encode n rest]
    rfl
  | @double d h =>
    intro fuel rest hf
    simp only [replySize] at hf
    obtain ⟨f, rfl⟩ : ∃ f, fuel = f + 1 := ⟨fuel - 1, by omega⟩
    simp only [encode, crlf, List.cons_append, List.append_assoc, List.nil_append,
      decodeF, decodeStep, reduceIte]
    rw [readLine_encode d rest (noCR_spec d h)]
    rfl
  | @boolean b =>
    intro fuel rest hf
    simp only [replySize] at hf
    obtain ⟨f, rfl⟩ : ∃ f, fuel = f + 1 := ⟨fuel - 1, by omega⟩
    cases b <;> rfl
  | null =>
    intro fuel rest hf
    simp only [replySize] at hf
    obtain ⟨f, rfl⟩ : ∃ f, fuel = f + 1 := ⟨fuel - 1, by omega⟩
    rfl
  | @error m h =>
    intro fuel rest hf
    simp only [replySize] at hf
    obtain ⟨f, rfl⟩ : ∃ f, fuel = f + 1 := ⟨fuel - 1, by omega⟩
    simp only [encode, crlf, List.cons_append, List.append_assoc, List.nil_append,
      decodeF, decodeStep, reduceIte]
    rw [readLine_encode m rest (noCR_spec m h)]
    rfl
  | @array xs h ih =>
    intro fuel rest hf
    simp only [replySize] at hf
    obtain ⟨f, rfl⟩ : ∃ f, fuel = f + 1 := ⟨fuel - 1, by omega⟩
    simp only [encode, crlf, List.cons_append, List.append_assoc, List.nil_append,
      decodeF, decodeStep, reduceIte]
    rw [readNatLine_encode xs.length (encodeList xs ++ rest)]
    simp only [Option.some_bind]
    rw [decodeListF_encodeList f xs
      (fun x hx rest2 => ih x hx f rest2
        (le_trans (replySize_le_sizeList x xs hx) (by omega))) rest]
    rfl
  | @map ps h1 h2 ih1 ih2 =>
    intro fuel rest hf
    simp only [replySize] at hf
    obtain ⟨f, rfl⟩ : ∃ f, fuel = f + 1 := ⟨fuel - 1, by omega⟩
    simp only [encode, crlf, List.cons_append, List.append_assoc, List.nil_append,
      decodeF, decodeStep, reduceIte]
    rw [readNatLine_encode ps.length (encodePairs ps ++ rest)]
    simp only [Option.some_bind]
    rw [decodePairsF_encodePairs f ps
      (fun p hp rest2 =>
        ⟨ih1 p hp f rest2
          (le_trans (replySize_le_sizePairs p ps hp).1 (by omega)),
         ih2 p hp f rest2
          (le_trans (replySize_le_sizePairs p ps hp).2 (by omega))⟩) rest]
    rfl
  | @push xs h ih =>
    intro fuel rest hf
    simp only [replySize] at hf
    obtain ⟨f, rfl⟩ : ∃ f, fuel = f + 1 := ⟨fuel - 1, by omega⟩
    simp only [encode, crlf, List.cons_append, List.append_assoc, List.nil_append,
      decodeF, decodeStep, reduceIte]
    rw [readNatLine_encode xs.length (encodeList xs ++ rest)]
    simp only [Option.some_bind]
    rw [decodeListF_encodeList f xs
      (fun x hx rest2 => ih x hx f rest2
        (le_trans (replySize_le_sizeList x xs hx) (by omega))) rest]
    rfl

/-- C8: the wire codec is a lossless round trip — for every representable
reply value (simple string, bulk string, integer, double, boolean, null,
error, array, map, push), decoding the encoding reproduces the value exactly,
with nothing left over. -/
theorem decode_encode_roundtrip (v : Reply) (hv : WFReply v) :
    decode (encode v) = some (v, []) := by
  have hsize := replySize_le_encode v hv
  have h := decodeF_encode v hv ((encode v).length + 1) [] (by omega)
  rw [List.append_nil] at h
  simpa [decode] using h

/-- Witness for C8 at the spec's concrete example: an array reply of the bulk
strings "one" and "two" survives the round trip unchanged. -/
theorem decode_encode_roundtrip_witness :
    decode (encode oneTwoArray) = some (oneTwoArray, []) := by
  apply decode_encode_roundtrip
  show WFReply (Reply.array [Reply.bulk ['o', 'n', 'e'], Reply.bulk ['t', 'w', 'o']])
  refine WFReply.array ?_
  intro x hx
  rcases List.mem_cons.mp hx with rfl | hx2
  · exact WFReply.bulk
  · rcases List.mem_cons.mp hx2 with rfl | hx3
    · exact WFReply.bulk
    · simp at hx3

end Rustis
